import Mathlib

/-!
Shallow embedding of the EncodingUtil library: a byte-stream encoding
classifier for ASCII / UTF-8 / GBK and strict converters between UTF-8 and
GBK.  Byte sequences are lists of natural numbers (each byte in 0..255).
The grammar validators, the detector and the smart converters are
translated from the C++ sources; the platform transcoding service
(iconv / WideCharToMultiByte), which is external to the repository, is
modelled from the specification.
-/

namespace encoding_util

/-- The `Encoding` enumeration from the C++ header. -/
inductive Encoding
  | UNKNOWN
  | ASCII
  | GBK
  | UTF8
deriving DecidableEq, Repr

namespace detail

/-- The tri-state UTF-8 validation status from the C++ header. -/
inductive Utf8Status
  | VALID
  | INVALID_SEQUENCE
  | INCOMPLETE_SEQUENCE
deriving DecidableEq, Repr

/-- Embedding of `detail::is_valid_gbk` from `src/unnamed/part_003`
(lines 42-55): single bytes up to 0x7F pass; a lead byte in
[0x81, 0xFE] must be followed by a trail byte in [0x40, 0xFE] other than
0x7F; anything else fails. -/
def is_valid_gbk : List Nat → Bool
  | [] => true
  | byte :: rest =>
    if byte ≤ 0x7F then is_valid_gbk rest
    else if 0x81 ≤ byte ∧ byte ≤ 0xFE then
      match rest with
      | [] => false
      | trail_byte :: rest2 =>
        if trail_byte < 0x40 ∨ trail_byte > 0xFE ∨ trail_byte = 0x7F then false
        else is_valid_gbk rest2
    else false

/-- The loop of `detail::validate_utf8` from `src/unnamed/part_003`
(lines 66-86), with the loop state (the pending continuation-byte
counter `bytes_to_check` and the running all-ascii flag) made explicit.
The C++ function writes the flag through an out parameter before any
early return, so an aborting iteration still updates it. -/
def validate_utf8_go : List Nat → Nat → Bool → Utf8Status × Bool
  | [], bytes_to_check, ascii =>
    (if bytes_to_check = 0 then Utf8Status.VALID else Utf8Status.INCOMPLETE_SEQUENCE, ascii)
  | byte :: rest, bytes_to_check, ascii =>
    let ascii2 := if byte > 0x7F then false else ascii
    if 0 < bytes_to_check then
      if byte &&& 0xC0 ≠ 0x80 then (Utf8Status.INVALID_SEQUENCE, ascii2)
      else validate_utf8_go rest (bytes_to_check - 1) ascii2
    else if 0xC2 ≤ byte ∧ byte ≤ 0xDF then validate_utf8_go rest 1 ascii2
    else if 0xE0 ≤ byte ∧ byte ≤ 0xEF then validate_utf8_go rest 2 ascii2
    else if 0xF0 ≤ byte ∧ byte ≤ 0xF4 then validate_utf8_go rest 3 ascii2
    else if 0x80 ≤ byte then (Utf8Status.INVALID_SEQUENCE, ascii2)
    else validate_utf8_go rest bytes_to_check ascii2

/-- Embedding of `detail::validate_utf8` from `src/unnamed/part_003`:
the scan starts with no pending continuation bytes and the all-ascii
flag set to true; it returns the status and the flag. -/
def validate_utf8 (sv : List Nat) : Utf8Status × Bool :=
  validate_utf8_go sv 0 true

end detail

/-- Embedding of `detect_encoding` from `src/unnamed/part_003`
(lines 103-121): empty input is ASCII; otherwise the UTF-8 validator
decides: VALID gives ASCII or UTF8 by the all-ascii flag,
INCOMPLETE_SEQUENCE gives UNKNOWN, and only INVALID_SEQUENCE falls
through to the GBK validator. -/
def detect_encoding (sv : List Nat) : Encoding :=
  if sv.isEmpty then Encoding.ASCII
  else
    match detail.validate_utf8 sv with
    | (detail.Utf8Status.VALID, is_all_ascii) =>
      if is_all_ascii then Encoding.ASCII else Encoding.UTF8
    | (detail.Utf8Status.INCOMPLETE_SEQUENCE, _) => Encoding.UNKNOWN
    | (detail.Utf8Status.INVALID_SEQUENCE, _) =>
      if detail.is_valid_gbk sv then Encoding.GBK else Encoding.UNKNOWN

/-- Embedding of `is_utf8` from `src/unnamed/part_003` (lines 128-131). -/
def is_utf8 (sv : List Nat) : Bool :=
  decide (detect_encoding sv = Encoding.UTF8) || decide (detect_encoding sv = Encoding.ASCII)

/-- Embedding of `is_gbk` from `src/unnamed/part_003` (lines 138-141). -/
def is_gbk (sv : List Nat) : Bool :=
  decide (detect_encoding sv = Encoding.GBK) || decide (detect_encoding sv = Encoding.ASCII)

/-! The header `src/include/encoding_util/encoding_util.hpp` carries its
own copy of the detector (`detail::is_valid_gbk`, `detail::validate_utf8`
and `detect_encoding`, lines 43-126).  It is embedded separately below so
that the two copies can be compared. -/

namespace hpp

/-- Embedding of `detail::is_valid_gbk` from
`src/include/encoding_util/encoding_util.hpp` (lines 43-56). -/
def is_valid_gbk : List Nat → Bool
  | [] => true
  | byte :: rest =>
    if byte ≤ 0x7F then is_valid_gbk rest
    else if 0x81 ≤ byte ∧ byte ≤ 0xFE then
      match rest with
      | [] => false
      | trail_byte :: rest2 =>
        if trail_byte < 0x40 ∨ trail_byte > 0xFE ∨ trail_byte = 0x7F then false
        else is_valid_gbk rest2
    else false

/-- The loop of `detail::validate_utf8` from
`src/include/encoding_util/encoding_util.hpp` (lines 67-87). -/
def validate_utf8_go : List Nat → Nat → Bool → detail.Utf8Status × Bool
  | [], bytes_to_check, ascii =>
    (if bytes_to_check = 0 then detail.Utf8Status.VALID
     else detail.Utf8Status.INCOMPLETE_SEQUENCE, ascii)
  | byte :: rest, bytes_to_check, ascii =>
    let ascii2 := if byte > 0x7F then false else ascii
    if 0 < bytes_to_check then
      if byte &&& 0xC0 ≠ 0x80 then (detail.Utf8Status.INVALID_SEQUENCE, ascii2)
      else validate_utf8_go rest (bytes_to_check - 1) ascii2
    else if 0xC2 ≤ byte ∧ byte ≤ 0xDF then validate_utf8_go rest 1 ascii2
    else if 0xE0 ≤ byte ∧ byte ≤ 0xEF then validate_utf8_go rest 2 ascii2
    else if 0xF0 ≤ byte ∧ byte ≤ 0xF4 then validate_utf8_go rest 3 ascii2
    else if 0x80 ≤ byte then (detail.Utf8Status.INVALID_SEQUENCE, ascii2)
    else validate_utf8_go rest bytes_to_check ascii2

/-- Embedding of `detail::validate_utf8` from the header. -/
def validate_utf8 (sv : List Nat) : detail.Utf8Status × Bool :=
  validate_utf8_go sv 0 true

/-- Embedding of `detect_encoding(const char*, size_t)` from
`src/include/encoding_util/encoding_util.hpp` (lines 104-122); the
`string_view` overload (lines 124-126) forwards to it unchanged. -/
def detect_encoding (sv : List Nat) : Encoding :=
  if sv.isEmpty then Encoding.ASCII
  else
    match validate_utf8 sv with
    | (detail.Utf8Status.VALID, is_all_ascii) =>
      if is_all_ascii then Encoding.ASCII else Encoding.UTF8
    | (detail.Utf8Status.INCOMPLETE_SEQUENCE, _) => Encoding.UNKNOWN
    | (detail.Utf8Status.INVALID_SEQUENCE, _) =>
      if is_valid_gbk sv then Encoding.GBK else Encoding.UNKNOWN

end hpp

/-! ### The transcoding service

The low-level converters `gbk_to_utf8` and `utf8_to_gbk` in
`src/unnamed/part_003` hand the bytes to the platform transcoding service
(iconv on POSIX, `MultiByteToWideChar` / `WideCharToMultiByte` on
Windows).  That service is external to the repository and the spec treats
it as a black box, so it is modelled here from the spec: a total
injective GBK-to-Unicode character mapping (every structurally valid GBK
unit decodes, per spec section 4.4), pinned to the real GBK table at the
code points the spec scenarios use, together with standard strict UTF-8
character encoding and decoding. -/

/-- Modelled from the spec: the GBK-to-Unicode decoding of one two-byte
GBK unit performed by the external transcoding service.  The four units
appearing in the spec scenarios are mapped to their real Unicode code
points; all other lead/trail pairs are mapped injectively into the range
[0x7800, 0xD602), which lies inside the Basic Multilingual Plane, above
every pinned code point and below the surrogate range. -/
def gbkDecodePair (l t : Nat) : Nat :=
  if l = 0xC4 ∧ t = 0xE3 then 0x4F60
  else if l = 0xBA ∧ t = 0xC3 then 0x597D
  else if l = 0xCA ∧ t = 0xC0 then 0x4E16
  else if l = 0xBD ∧ t = 0xE7 then 0x754C
  else 0x7800 + (l - 0x81) * 191 + (t - 0x40)

/-- Modelled from the spec: the Unicode-to-GBK encoding of one code point
performed by the external transcoding service, the partial inverse of
`gbkDecodePair`.  Code points at or below 0x7F encode as themselves;
code points outside the image of the GBK table (in particular everything
outside the Basic Multilingual Plane, such as U+1F602) have no GBK
representation and yield `none`. -/
def gbkEncodeChar (c : Nat) : Option (List Nat) :=
  if c ≤ 0x7F then some [c]
  else if c = 0x4F60 then some [0xC4, 0xE3]
  else if c = 0x597D then some [0xBA, 0xC3]
  else if c = 0x4E16 then some [0xCA, 0xC0]
  else if c = 0x754C then some [0xBD, 0xE7]
  else if 0x7800 ≤ c ∧ c < 0x7800 + 126 * 191 then
    some [0x81 + (c - 0x7800) / 191, 0x40 + (c - 0x7800) % 191]
  else none

/-- Modelled from the spec: the service-side single scan of a byte
sequence under the GBK grammar, carrying the pending lead byte (0 when
no unit is open).  Bytes at or below 0x7F stand alone, a lead byte in
[0x81, 0xFE] pairs with a trail byte in [0x40, 0xFE] other than 0x7F,
anything else — including a dangling lead at end of input — is a
malformed-input failure. -/
def gbkDecodeGo : List Nat → Nat → Option (List Nat)
  | [], pending => if pending = 0 then some [] else none
  | b :: rest, pending =>
    if 0 < pending then
      if 0x40 ≤ b ∧ b ≤ 0xFE ∧ b ≠ 0x7F then
        (gbkDecodeGo rest 0).map (fun cs => gbkDecodePair pending b :: cs)
      else none
    else if b ≤ 0x7F then (gbkDecodeGo rest 0).map (fun cs => b :: cs)
    else if 0x81 ≤ b ∧ b ≤ 0xFE then gbkDecodeGo rest b
    else none

/-- Modelled from the spec: the service-side parse of a byte sequence
under the GBK grammar into code points. -/
def gbkDecode (s : List Nat) : Option (List Nat) :=
  gbkDecodeGo s 0

/-- Modelled from the spec: standard UTF-8 encoding of one Unicode code
point (1 to 4 bytes), as produced by the external transcoding service. -/
def utf8EncodeChar (c : Nat) : List Nat :=
  if c ≤ 0x7F then [c]
  else if c ≤ 0x7FF then [0xC0 + c / 64, 0x80 + c % 64]
  else if c ≤ 0xFFFF then [0xE0 + c / 4096, 0x80 + c / 64 % 64, 0x80 + c % 64]
  else [0xF0 + c / 262144, 0x80 + c / 4096 % 64, 0x80 + c / 64 % 64, 0x80 + c % 64]

/-- UTF-8 encoding of a list of code points, unit by unit. -/
def utf8Encode : List Nat → List Nat
  | [] => []
  | c :: cs => utf8EncodeChar c ++ utf8Encode cs

/-- Modelled from the spec: the service-side single scan of a byte
sequence under the UTF-8 grammar, carrying the number of pending
continuation bytes and the partial code-point value accumulated so far.
A lead byte fixes how many continuation bytes in [0x80, 0xBF] must
follow; any violation — including a unit left open at end of input — is
a malformed-input failure. -/
def utf8DecodeGo : List Nat → Nat → Nat → Option (List Nat)
  | [], pending, _ => if pending = 0 then some [] else none
  | b :: rest, pending, acc =>
    if 0 < pending then
      if 0x80 ≤ b ∧ b ≤ 0xBF then
        if pending = 1 then
          (utf8DecodeGo rest 0 0).map (fun cs => (acc * 64 + (b - 0x80)) :: cs)
        else utf8DecodeGo rest (pending - 1) (acc * 64 + (b - 0x80))
      else none
    else if b ≤ 0x7F then (utf8DecodeGo rest 0 0).map (fun cs => b :: cs)
    else if 0xC2 ≤ b ∧ b ≤ 0xDF then utf8DecodeGo rest 1 (b - 0xC0)
    else if 0xE0 ≤ b ∧ b ≤ 0xEF then utf8DecodeGo rest 2 (b - 0xE0)
    else if 0xF0 ≤ b ∧ b ≤ 0xF4 then utf8DecodeGo rest 3 (b - 0xF0)
    else none

/-- Modelled from the spec: UTF-8 decoding of a byte sequence into code
points, as performed by the external transcoding service; ill-formed
sequences are malformed-input failures. -/
def utf8Decode (s : List Nat) : Option (List Nat) :=
  utf8DecodeGo s 0 0

/-- The error taxonomy of spec section 7.  The C++ code surfaces every
failure as a `std::runtime_error`; the message texts distinguish the
kinds listed here. -/
inductive ConvError
  | unrecognizedEncoding
  | unrepresentableCharacter
  | malformedInput
  | serviceFailure
deriving DecidableEq, Repr

/-- Embedding of `gbk_to_utf8` from `src/unnamed/part_003` (lines
254-256) over the modelled service: every structurally valid GBK
sequence decodes to code points and is re-encoded as UTF-8; malformed
input is rejected with an error and no output. -/
def gbk_to_utf8 (gbk_sv : List Nat) : Except ConvError (List Nat) :=
  match gbkDecode gbk_sv with
  | some cs => Except.ok (utf8Encode cs)
  | none => Except.error ConvError.malformedInput

/-- GBK-encode every code point of a list, or fail if any code point has
no GBK representation. -/
def encodeAllGbk : List Nat → Option (List Nat)
  | [] => some []
  | c :: cs =>
    match gbkEncodeChar c, encodeAllGbk cs with
    | some u, some v => some (u ++ v)
    | _, _ => none

/-- Embedding of `utf8_to_gbk` from `src/unnamed/part_003` (lines
258-260) over the modelled service: the input is decoded as strict
UTF-8 (ill-formed input is a malformed-input error), then every code
point is encoded into GBK; if any code point has no GBK representation
the whole call fails with the unrepresentable-character error and no
output bytes are produced. -/
def utf8_to_gbk (utf8_sv : List Nat) : Except ConvError (List Nat) :=
  match utf8Decode utf8_sv with
  | none => Except.error ConvError.malformedInput
  | some cs =>
    match encodeAllGbk cs with
    | some out => Except.ok out
    | none => Except.error ConvError.unrepresentableCharacter

/-- The branch structure of `to_utf8` from `src/unnamed/part_003`
(lines 275-283), abstracted over the low-level converter it delegates
to in the GBK branch; `to_utf8` instantiates it with `gbk_to_utf8`
exactly as the source does.  The abstraction shows which results are
produced without consulting the converter at all. -/
def to_utf8_core (conv : List Nat → Except ConvError (List Nat)) (sv : List Nat) :
    Except ConvError (List Nat) :=
  match detect_encoding sv with
  | Encoding.UTF8 => Except.ok sv
  | Encoding.ASCII => Except.ok sv
  | Encoding.GBK => conv sv
  | Encoding.UNKNOWN => Except.error ConvError.unrecognizedEncoding

/-- Embedding of `to_utf8` from `src/unnamed/part_003` (lines 275-283). -/
def to_utf8 (sv : List Nat) : Except ConvError (List Nat) :=
  to_utf8_core gbk_to_utf8 sv

/-- The branch structure of `to_gbk` from `src/unnamed/part_003`
(lines 295-303), abstracted over the low-level converter used in the
UTF8 branch. -/
def to_gbk_core (conv : List Nat → Except ConvError (List Nat)) (sv : List Nat) :
    Except ConvError (List Nat) :=
  match detect_encoding sv with
  | Encoding.GBK => Except.ok sv
  | Encoding.ASCII => Except.ok sv
  | Encoding.UTF8 => conv sv
  | Encoding.UNKNOWN => Except.error ConvError.unrecognizedEncoding

/-- Embedding of `to_gbk(std::string_view)` from `src/unnamed/part_003`
(lines 295-303). -/
def to_gbk (sv : List Nat) : Except ConvError (List Nat) :=
  to_gbk_core utf8_to_gbk sv

/-- Embedding of the C++20 overload `to_gbk(std::u8string_view)` from
`src/unnamed/part_003` (lines 315-317): it reinterprets the bytes and
passes them straight to `utf8_to_gbk`, with no call to
`detect_encoding`. -/
def to_gbk_u8 (u8_sv : List Nat) : Except ConvError (List Nat) :=
  utf8_to_gbk u8_sv

/-! ### Spec-side descriptions used for refinement claims -/

/-- The UTF-8 scan status exactly as the spec words it (section 4.1):
while a continuation is pending, a byte whose top two bits are not `10`
is invalid; otherwise bytes up to 0x7F stand alone, leads 0xC2-0xDF,
0xE0-0xEF and 0xF0-0xF4 open units of 2, 3 and 4 bytes, and any other
byte at or above 0x80 is invalid; a scan ending with a pending
continuation is incomplete. -/
def specUtf8Status : List Nat → Nat → detail.Utf8Status
  | [], 0 => detail.Utf8Status.VALID
  | [], _ + 1 => detail.Utf8Status.INCOMPLETE_SEQUENCE
  | b :: rest, pending + 1 =>
    if 0x80 ≤ b ∧ b ≤ 0xBF then specUtf8Status rest pending
    else detail.Utf8Status.INVALID_SEQUENCE
  | b :: rest, 0 =>
    if b ≤ 0x7F then specUtf8Status rest 0
    else if 0xC2 ≤ b ∧ b ≤ 0xDF then specUtf8Status rest 1
    else if 0xE0 ≤ b ∧ b ≤ 0xEF then specUtf8Status rest 2
    else if 0xF0 ≤ b ∧ b ≤ 0xF4 then specUtf8Status rest 3
    else detail.Utf8Status.INVALID_SEQUENCE

/-- The UTF-8 validator contract as the spec words it: the scan status
from an empty pending counter, paired with a flag that is true exactly
when every byte of the input is at most 0x7F. -/
def specValidateUtf8 (sv : List Nat) : detail.Utf8Status × Bool :=
  (specUtf8Status sv 0, decide (∀ b ∈ sv, b ≤ 0x7F))

/-- The GBK grammar exactly as the spec words it (section 4.2): a
sequence of units, each either a single byte at most 0x7F or a lead
byte in [0x81, 0xFE] followed by a trail byte in [0x40, 0xFE] other
than 0x7F. -/
inductive GbkSeq : List Nat → Prop
  | nil : GbkSeq []
  | single {b : Nat} {rest : List Nat} :
      b ≤ 0x7F → GbkSeq rest → GbkSeq (b :: rest)
  | pair {l t : Nat} {rest : List Nat} :
      0x81 ≤ l → l ≤ 0xFE → 0x40 ≤ t → t ≤ 0xFE → t ≠ 0x7F →
      GbkSeq rest → GbkSeq (l :: t :: rest)

/-! ### Lemmas about the UTF-8 validator -/

set_option maxRecDepth 4096 in
/-- For bytes, the continuation test `byte & 0xC0 == 0x80` of the C++
code coincides with the range [0x80, 0xBF]. -/
theorem cont_byte_iff : ∀ b < 256, (b &&& 0xC0 = 0x80 ↔ 0x80 ≤ b ∧ b ≤ 0xBF) := by
  decide

/-- Once the all-ascii flag is false it stays false. -/
theorem validate_go_flag_false :
    ∀ (s : List Nat) (p : Nat), (detail.validate_utf8_go s p false).2 = false := by
  intro s
  induction s with
  | nil => intro p; simp [detail.validate_utf8_go]
  | cons b rest ih =>
    intro p
    simp only [detail.validate_utf8_go]
    split_ifs <;> simp [ih]

/-- From any reachable state (a pending continuation implies the flag is
already false), the flag returned by the scan is the conjunction of the
incoming flag with all bytes of the remaining input being ASCII — even
when the scan aborts early. -/
theorem validate_go_flag (s : List Nat) :
    ∀ p a, (0 < p → a = false) →
      (detail.validate_utf8_go s p a).2 = (a && decide (∀ b ∈ s, b ≤ 0x7F)) := by
  induction s with
  | nil => intro p a _; simp [detail.validate_utf8_go]
  | cons b rest ih =>
    intro p a hpa
    by_cases hb : b ≤ 0x7F
    · have hgt : ¬(0x7F < b) := by omega
      by_cases hp : 0 < p
      · have ha : a = false := hpa hp
        subst ha
        simp only [validate_go_flag_false, Bool.false_and]
      · have hp0 : p = 0 := by omega
        subst hp0
        have h1 : ¬(0xC2 ≤ b ∧ b ≤ 0xDF) := by omega
        have h2 : ¬(0xE0 ≤ b ∧ b ≤ 0xEF) := by omega
        have h3 : ¬(0xF0 ≤ b ∧ b ≤ 0xF4) := by omega
        have h4 : ¬(0x80 ≤ b) := by omega
        simp only [detail.validate_utf8_go, if_neg hgt, if_neg h1, if_neg h2, if_neg h3,
          if_neg h4, if_neg (by omega : ¬ (0:Nat) < 0)]
        rw [ih 0 a (by omega)]
        simp [List.forall_mem_cons, hb]
    · have hrhs : ¬(∀ x ∈ b :: rest, x ≤ 0x7F) := by
        intro h; exact hb (h b (List.mem_cons_self b rest))
      simp only [decide_eq_false hrhs, Bool.and_false]
      have hgt : 0x7F < b := by omega
      simp only [detail.validate_utf8_go, if_pos hgt]
      split_ifs <;> simp [validate_go_flag_false]

/-- An all-ASCII input leaves the scan in its initial state and is
declared VALID with the incoming flag unchanged. -/
theorem validate_go_ascii (s : List Nat) :
    ∀ a, (∀ b ∈ s, b ≤ 0x7F) → detail.validate_utf8_go s 0 a = (detail.Utf8Status.VALID, a) := by
  induction s with
  | nil => intro a _; simp [detail.validate_utf8_go]
  | cons b rest ih =>
    intro a h
    have hb : b ≤ 0x7F := h b (List.mem_cons_self b rest)
    have hgt : ¬(0x7F < b) := by omega
    have h1 : ¬(0xC2 ≤ b ∧ b ≤ 0xDF) := by omega
    have h2 : ¬(0xE0 ≤ b ∧ b ≤ 0xEF) := by omega
    have h3 : ¬(0xF0 ≤ b ∧ b ≤ 0xF4) := by omega
    have h4 : ¬(0x80 ≤ b) := by omega
    simp only [detail.validate_utf8_go, if_neg hgt, if_neg h1, if_neg h2, if_neg h3,
      if_neg h4, if_neg (by omega : ¬ (0:Nat) < 0)]
    exact ih a (fun x hx => h x (List.mem_cons_of_mem b hx))

/-- On byte input the status computed by the C++ scan agrees with the
scan the spec describes, from any pending counter. -/
theorem validate_go_status (s : List Nat) (hs : ∀ b ∈ s, b < 256) :
    ∀ p a, (detail.validate_utf8_go s p a).1 = specUtf8Status s p := by
  induction s with
  | nil =>
    intro p a
    cases p <;> simp [detail.validate_utf8_go, specUtf8Status]
  | cons b rest ih =>
    have hb : b < 256 := hs b (List.mem_cons_self b rest)
    have hrest : ∀ x ∈ rest, x < 256 := fun x hx => hs x (List.mem_cons_of_mem b hx)
    intro p a
    cases p with
    | succ q =>
      have hcont := cont_byte_iff b hb
      by_cases hc : 0x80 ≤ b ∧ b ≤ 0xBF
      · have hland : ¬(b &&& 0xC0 ≠ 0x80) := by simp [hcont.mpr hc]
        simp only [detail.validate_utf8_go, specUtf8Status, if_pos (Nat.succ_pos q),
          if_neg hland, if_pos hc, Nat.succ_sub_one]
        exact ih hrest q _
      · have hland : b &&& 0xC0 ≠ 0x80 := by
          intro h; exact hc (hcont.mp h)
        simp [detail.validate_utf8_go, specUtf8Status, hland, hc]
    | zero =>
      by_cases h0 : b ≤ 0x7F
      · have h1 : ¬(0xC2 ≤ b ∧ b ≤ 0xDF) := by omega
        have h2 : ¬(0xE0 ≤ b ∧ b ≤ 0xEF) := by omega
        have h3 : ¬(0xF0 ≤ b ∧ b ≤ 0xF4) := by omega
        have h4 : ¬(0x80 ≤ b) := by omega
        simp only [detail.validate_utf8_go, specUtf8Status, if_neg (by omega : ¬ (0:Nat) < 0),
          if_neg h1, if_neg h2, if_neg h3, if_neg h4, if_pos h0]
        exact ih hrest 0 _
      · by_cases h1 : 0xC2 ≤ b ∧ b ≤ 0xDF
        · simp only [detail.validate_utf8_go, specUtf8Status, if_neg (by omega : ¬ (0:Nat) < 0),
            if_pos h1, if_neg h0]
          exact ih hrest 1 _
        · by_cases h2 : 0xE0 ≤ b ∧ b ≤ 0xEF
          · simp only [detail.validate_utf8_go, specUtf8Status, if_neg (by omega : ¬ (0:Nat) < 0),
              if_neg h1, if_pos h2, if_neg h0]
            exact ih hrest 2 _
          · by_cases h3 : 0xF0 ≤ b ∧ b ≤ 0xF4
            · simp only [detail.validate_utf8_go, specUtf8Status, if_neg (by omega : ¬ (0:Nat) < 0),
                if_neg h1, if_neg h2, if_pos h3, if_neg h0]
              exact ih hrest 3 _
            · have h4 : 0x80 ≤ b := by omega
              simp [detail.validate_utf8_go, specUtf8Status, h0, h1, h2, h3, h4]

/-! ### Lemmas about the GBK grammar and the modelled service -/

/-- A valid GBK lead/trail pair decodes to a code point below the
surrogate range and above the ASCII range, and encoding it back yields
exactly the original pair. -/
theorem gbkDecodePair_spec {l t : Nat} (h1 : 0x81 ≤ l) (h2 : l ≤ 0xFE)
    (h3 : 0x40 ≤ t) (h4 : t ≤ 0xFE) (h5 : t ≠ 0x7F) :
    gbkEncodeChar (gbkDecodePair l t) = some [l, t] ∧
      gbkDecodePair l t < 0xD800 ∧ 0x7F < gbkDecodePair l t := by
  by_cases c1 : l = 0xC4 ∧ t = 0xE3
  · obtain ⟨rfl, rfl⟩ := c1; exact ⟨by decide, by decide, by decide⟩
  · by_cases c2 : l = 0xBA ∧ t = 0xC3
    · obtain ⟨rfl, rfl⟩ := c2; exact ⟨by decide, by decide, by decide⟩
    · by_cases c3 : l = 0xCA ∧ t = 0xC0
      · obtain ⟨rfl, rfl⟩ := c3; exact ⟨by decide, by decide, by decide⟩
      · by_cases c4 : l = 0xBD ∧ t = 0xE7
        · obtain ⟨rfl, rfl⟩ := c4; exact ⟨by decide, by decide, by decide⟩
        · have hd : gbkDecodePair l t = 0x7800 + (l - 0x81) * 191 + (t - 0x40) := by
            unfold gbkDecodePair
            rw [if_neg c1, if_neg c2, if_neg c3, if_neg c4]
          refine ⟨?_, by omega, by omega⟩
          unfold gbkEncodeChar
          rw [hd]
          have e1 : ¬(0x7800 + (l - 0x81) * 191 + (t - 0x40) ≤ 0x7F) := by omega
          have e2 : ¬(0x7800 + (l - 0x81) * 191 + (t - 0x40) = 0x4F60) := by omega
          have e3 : ¬(0x7800 + (l - 0x81) * 191 + (t - 0x40) = 0x597D) := by omega
          have e4 : ¬(0x7800 + (l - 0x81) * 191 + (t - 0x40) = 0x4E16) := by omega
          have e5 : ¬(0x7800 + (l - 0x81) * 191 + (t - 0x40) = 0x754C) := by omega
          have e6 : 0x7800 ≤ 0x7800 + (l - 0x81) * 191 + (t - 0x40) ∧
              0x7800 + (l - 0x81) * 191 + (t - 0x40) < 0x7800 + 126 * 191 := by omega
          rw [if_neg e1, if_neg e2, if_neg e3, if_neg e4, if_neg e5, if_pos e6]
          simp only [Option.some.injEq, List.cons.injEq, and_true]
          omega

/-- An ASCII byte at the head of the input is consumed alone by the GBK
validator. -/
theorem is_valid_gbk_cons_ascii {b : Nat} {rest : List Nat} (hb : b ≤ 0x7F) :
    detail.is_valid_gbk (b :: rest) = detail.is_valid_gbk rest := by
  cases rest with
  | nil => simp [detail.is_valid_gbk, hb]
  | cons t r2 => simp [detail.is_valid_gbk, hb]

/-- A GBK lead byte with a valid trail byte consumes both. -/
theorem is_valid_gbk_cons_pair {b t : Nat} {rest : List Nat}
    (hb : ¬b ≤ 0x7F) (hl : 0x81 ≤ b ∧ b ≤ 0xFE) (ht : 0x40 ≤ t ∧ t ≤ 0xFE ∧ t ≠ 0x7F) :
    detail.is_valid_gbk (b :: t :: rest) = detail.is_valid_gbk rest := by
  have ht2 : ¬(t < 0x40 ∨ t > 0xFE ∨ t = 0x7F) := by omega
  simp [detail.is_valid_gbk, hb, hl, ht2]

/-- A GBK lead byte with no byte remaining after it is rejected. -/
theorem is_valid_gbk_lead_nil {b : Nat} (hb : ¬b ≤ 0x7F) :
    detail.is_valid_gbk [b] = false := by
  simp [detail.is_valid_gbk, hb]

/-- A GBK lead byte with an invalid trail byte is rejected. -/
theorem is_valid_gbk_bad_trail {b t : Nat} {rest : List Nat}
    (hb : ¬b ≤ 0x7F) (ht : t < 0x40 ∨ t > 0xFE ∨ t = 0x7F) :
    detail.is_valid_gbk (b :: t :: rest) = false := by
  simp [detail.is_valid_gbk, hb, ht]

/-- A first byte that is neither ASCII nor in the GBK lead range
(that is, 0x80 or 0xFF) is rejected. -/
theorem is_valid_gbk_bad_lead {b : Nat} {rest : List Nat}
    (hb : ¬b ≤ 0x7F) (hl : ¬(0x81 ≤ b ∧ b ≤ 0xFE)) :
    detail.is_valid_gbk (b :: rest) = false := by
  cases rest with
  | nil => simp [detail.is_valid_gbk, hb, hl]
  | cons t r2 => simp [detail.is_valid_gbk, hb, hl]

/-- A structurally valid GBK sequence decodes under the modelled service
to code points below the surrogate range, and encoding those code points
back into GBK reproduces the original bytes. -/
theorem gbk_decode_spec_aux : ∀ (n : Nat) (s : List Nat), s.length ≤ n →
    detail.is_valid_gbk s = true →
    ∃ cs, gbkDecode s = some cs ∧ encodeAllGbk cs = some s ∧ ∀ c ∈ cs, c < 0xD800 := by
  intro n
  induction n with
  | zero =>
    intro s hlen _
    have hnil : s = [] := List.eq_nil_of_length_eq_zero (Nat.le_zero.mp hlen)
    subst hnil
    exact ⟨[], rfl, rfl, by simp⟩
  | succ n ih =>
    intro s hlen hval
    cases s with
    | nil => exact ⟨[], rfl, rfl, by simp⟩
    | cons b rest =>
      by_cases hb : b ≤ 0x7F
      · rw [is_valid_gbk_cons_ascii hb] at hval
        obtain ⟨cs0, hdec, henc, hlt⟩ := ih rest (by simp at hlen; omega) hval
        refine ⟨b :: cs0, ?_, ?_, ?_⟩
        · unfold gbkDecode at hdec ⊢
          simp [gbkDecodeGo, hb, hdec]
        · have hch : gbkEncodeChar b = some [b] := by simp [gbkEncodeChar, hb]
          simp [encodeAllGbk, hch, henc]
        · intro c hc
          rcases List.mem_cons.mp hc with rfl | hc2
          · omega
          · exact hlt c hc2
      · by_cases hl : 0x81 ≤ b ∧ b ≤ 0xFE
        · cases rest with
          | nil => rw [is_valid_gbk_lead_nil hb] at hval; exact absurd hval (by simp)
          | cons t rest2 =>
            by_cases ht : 0x40 ≤ t ∧ t ≤ 0xFE ∧ t ≠ 0x7F
            · rw [is_valid_gbk_cons_pair hb hl ht] at hval
              obtain ⟨cs0, hdec, henc, hlt⟩ := ih rest2 (by simp at hlen; omega) hval
              obtain ⟨hpair, hplt, hpgt⟩ := gbkDecodePair_spec hl.1 hl.2 ht.1 ht.2.1 ht.2.2
              refine ⟨gbkDecodePair b t :: cs0, ?_, ?_, ?_⟩
              · unfold gbkDecode at hdec ⊢
                have hb0 : ¬(0 : Nat) < 0 := by omega
                have hbpos : 0 < b := by omega
                simp [gbkDecodeGo, hb, hl, ht, hbpos, hdec]
              · simp [encodeAllGbk, hpair, henc]
              · intro c hc
                rcases List.mem_cons.mp hc with rfl | hc2
                · exact hplt
                · exact hlt c hc2
            · have ht2 : t < 0x40 ∨ t > 0xFE ∨ t = 0x7F := by omega
              rw [is_valid_gbk_bad_trail hb ht2] at hval
              exact absurd hval (by simp)
        · rw [is_valid_gbk_bad_lead hb hl] at hval
          exact absurd hval (by simp)

/-- Packaged form of `gbk_decode_spec_aux`. -/
theorem gbk_decode_spec {s : List Nat} (hval : detail.is_valid_gbk s = true) :
    ∃ cs, gbkDecode s = some cs ∧ encodeAllGbk cs = some s ∧ ∀ c ∈ cs, c < 0xD800 :=
  gbk_decode_spec_aux s.length s le_rfl hval

/-- The C++ GBK validator agrees with the GBK grammar the spec words. -/
theorem is_valid_gbk_iff_aux : ∀ (n : Nat) (s : List Nat), s.length ≤ n →
    (detail.is_valid_gbk s = true ↔ GbkSeq s) := by
  intro n
  induction n with
  | zero =>
    intro s hlen
    have hnil : s = [] := List.eq_nil_of_length_eq_zero (Nat.le_zero.mp hlen)
    subst hnil
    simp [detail.is_valid_gbk, GbkSeq.nil]
  | succ n ih =>
    intro s hlen
    cases s with
    | nil => simp [detail.is_valid_gbk, GbkSeq.nil]
    | cons b rest =>
      by_cases hb : b ≤ 0x7F
      · rw [is_valid_gbk_cons_ascii hb]
        rw [ih rest (by simp at hlen; omega)]
        constructor
        · exact fun h => GbkSeq.single hb h
        · intro h
          cases h with
          | single _ h => exact h
          | pair hl1 hl2 _ _ _ _ => omega
      · by_cases hl : 0x81 ≤ b ∧ b ≤ 0xFE
        · cases rest with
          | nil =>
            rw [is_valid_gbk_lead_nil hb]
            constructor
            · intro h; exact absurd h (by simp)
            · intro h; cases h with
              | single hle _ => omega
          | cons t rest2 =>
            by_cases ht : 0x40 ≤ t ∧ t ≤ 0xFE ∧ t ≠ 0x7F
            · rw [is_valid_gbk_cons_pair hb hl ht]
              rw [ih rest2 (by simp at hlen; omega)]
              constructor
              · exact fun h => GbkSeq.pair hl.1 hl.2 ht.1 ht.2.1 ht.2.2 h
              · intro h
                cases h with
                | single hle _ => omega
                | pair _ _ _ _ _ h => exact h
            · have ht2 : t < 0x40 ∨ t > 0xFE ∨ t = 0x7F := by omega
              rw [is_valid_gbk_bad_trail hb ht2]
              constructor
              · intro h; exact absurd h (by simp)
              · intro h
                cases h with
                | single hle _ => omega
                | pair _ _ hta htb htc _ => omega
        · rw [is_valid_gbk_bad_lead hb hl]
          constructor
          · intro h; exact absurd h (by simp)
          · intro h
            cases h with
            | single hle _ => omega
            | pair hl1 hl2 _ _ _ _ => exact absurd ⟨hl1, hl2⟩ hl

/-! ### Lemmas about UTF-8 encoding and decoding in the modelled service -/

/-- Decoding the UTF-8 encoding of a code point below the surrogate
range consumes exactly that unit and yields the code point back. -/
theorem utf8DecodeGo_encodeChar (c : Nat) (rest : List Nat) (hc : c < 0xD800) :
    utf8DecodeGo (utf8EncodeChar c ++ rest) 0 0 =
      (utf8DecodeGo rest 0 0).map (fun cs => c :: cs) := by
  by_cases h1 : c ≤ 0x7F
  · simp only [utf8EncodeChar, if_pos h1, List.cons_append, List.nil_append]
    simp [utf8DecodeGo, h1]
  · by_cases h2 : c ≤ 0x7FF
    · simp only [utf8EncodeChar, if_neg h1, if_pos h2, List.cons_append, List.nil_append]
      have k1 : ¬(0xC0 + c / 64 ≤ 0x7F) := by omega
      have k2 : 0xC2 ≤ 0xC0 + c / 64 ∧ 0xC0 + c / 64 ≤ 0xDF := by omega
      have k3 : 0x80 ≤ 0x80 + c % 64 ∧ 0x80 + c % 64 ≤ 0xBF := by omega
      simp [utf8DecodeGo, k1, k2, k3]
      rw [show c / 64 * 64 + c % 64 = c from by omega]
    · have h3 : c ≤ 0xFFFF := by omega
      simp only [utf8EncodeChar, if_neg h1, if_neg h2, if_pos h3, List.cons_append,
        List.nil_append]
      have k1 : ¬(0xE0 + c / 4096 ≤ 0x7F) := by omega
      have k2 : ¬(0xC2 ≤ 0xE0 + c / 4096 ∧ 0xE0 + c / 4096 ≤ 0xDF) := by omega
      have k3 : 0xE0 ≤ 0xE0 + c / 4096 ∧ 0xE0 + c / 4096 ≤ 0xEF := by omega
      have k4 : 0x80 ≤ 0x80 + c / 64 % 64 ∧ 0x80 + c / 64 % 64 ≤ 0xBF := by omega
      have k5 : 0x80 ≤ 0x80 + c % 64 ∧ 0x80 + c % 64 ≤ 0xBF := by omega
      simp [utf8DecodeGo, k1, k2, k3, k4, k5]
      rw [show (c / 4096 * 64 + c / 64 % 64) * 64 + c % 64 = c from by omega]

/-- Decoding the UTF-8 encoding of a list of code points below the
surrogate range yields the list back. -/
theorem utf8Decode_encode (cs : List Nat) (h : ∀ c ∈ cs, c < 0xD800) :
    utf8Decode (utf8Encode cs) = some cs := by
  induction cs with
  | nil => rfl
  | cons c cs0 ih =>
    have hc : c < 0xD800 := h c (List.mem_cons_self c cs0)
    have hrest : ∀ x ∈ cs0, x < 0xD800 := fun x hx => h x (List.mem_cons_of_mem c hx)
    unfold utf8Decode at ih ⊢
    rw [show utf8Encode (c :: cs0) = utf8EncodeChar c ++ utf8Encode cs0 from rfl]
    rw [utf8DecodeGo_encodeChar c _ hc, ih hrest]
    rfl

/-- The C++ UTF-8 validator, run from its initial state, scans the
encoding of one code point below 0x10FFFF back to the initial state,
clearing the all-ascii flag unless the code point is ASCII. -/
theorem validate_go_encodeChar (c : Nat) (rest : List Nat) (a : Bool) (hc : c ≤ 0x10FFFF) :
    detail.validate_utf8_go (utf8EncodeChar c ++ rest) 0 a =
      detail.validate_utf8_go rest 0 (if c ≤ 0x7F then a else false) := by
  by_cases h1 : c ≤ 0x7F
  · simp only [utf8EncodeChar, if_pos h1, List.cons_append, List.nil_append]
    have k0 : ¬(0x7F < c) := by omega
    have k1 : ¬(0xC2 ≤ c ∧ c ≤ 0xDF) := by omega
    have k2 : ¬(0xE0 ≤ c ∧ c ≤ 0xEF) := by omega
    have k3 : ¬(0xF0 ≤ c ∧ c ≤ 0xF4) := by omega
    have k4 : ¬(0x80 ≤ c) := by omega
    simp [detail.validate_utf8_go, k0, k1, k2, k3, k4, h1]
  · have hcont : ∀ t : Nat, 0x80 ≤ t → t ≤ 0xBF → ¬(t &&& 0xC0 ≠ 0x80) := by
      intro t ht1 ht2
      simp only [ne_eq, not_not]
      exact (cont_byte_iff t (by omega)).mpr ⟨ht1, ht2⟩
    by_cases h2 : c ≤ 0x7FF
    · simp only [utf8EncodeChar, if_neg h1, if_pos h2, List.cons_append, List.nil_append]
      have k0 : 0x7F < 0xC0 + c / 64 := by omega
      have k1 : 0xC2 ≤ 0xC0 + c / 64 ∧ 0xC0 + c / 64 ≤ 0xDF := by omega
      have k2 : 0x7F < 0x80 + c % 64 := by omega
      have k3 := hcont (0x80 + c % 64) (by omega) (by omega)
      simp [detail.validate_utf8_go, k0, k1, k2, k3, h1]
    · by_cases h3 : c ≤ 0xFFFF
      · simp only [utf8EncodeChar, if_neg h1, if_neg h2, if_pos h3, List.cons_append,
          List.nil_append]
        have k0 : 0x7F < 0xE0 + c / 4096 := by omega
        have k1 : ¬(0xC2 ≤ 0xE0 + c / 4096 ∧ 0xE0 + c / 4096 ≤ 0xDF) := by omega
        have k2 : 0xE0 ≤ 0xE0 + c / 4096 ∧ 0xE0 + c / 4096 ≤ 0xEF := by omega
        have k3 : 0x7F < 0x80 + c / 64 % 64 := by omega
        have k4 : 0x7F < 0x80 + c % 64 := by omega
        have k5 := hcont (0x80 + c / 64 % 64) (by omega) (by omega)
        have k6 := hcont (0x80 + c % 64) (by omega) (by omega)
        simp [detail.validate_utf8_go, k0, k1, k2, k3, k4, k5, k6, h1]
      · simp only [utf8EncodeChar, if_neg h1, if_neg h2, if_neg h3, List.cons_append,
          List.nil_append]
        have k0 : 0x7F < 0xF0 + c / 262144 := by omega
        have k1 : ¬(0xC2 ≤ 0xF0 + c / 262144 ∧ 0xF0 + c / 262144 ≤ 0xDF) := by omega
        have k2 : ¬(0xE0 ≤ 0xF0 + c / 262144 ∧ 0xF0 + c / 262144 ≤ 0xEF) := by omega
        have k3 : 0xF0 ≤ 0xF0 + c / 262144 ∧ 0xF0 + c / 262144 ≤ 0xF4 := by omega
        have k4 : 0x7F < 0x80 + c / 4096 % 64 := by omega
        have k5 : 0x7F < 0x80 + c / 64 % 64 := by omega
        have k6 : 0x7F < 0x80 + c % 64 := by omega
        have k7 := hcont (0x80 + c / 4096 % 64) (by omega) (by omega)
        have k8 := hcont (0x80 + c / 64 % 64) (by omega) (by omega)
        have k9 := hcont (0x80 + c % 64) (by omega) (by omega)
        simp [detail.validate_utf8_go, k0, k1, k2, k3, k4, k5, k6, k7, k8, k9, h1]

/-- The C++ UTF-8 validator accepts the UTF-8 encoding of any list of
code points below 0x10FFFF. -/
theorem validate_encode_valid (cs : List Nat) (a : Bool) (h : ∀ c ∈ cs, c ≤ 0x10FFFF) :
    (detail.validate_utf8_go (utf8Encode cs) 0 a).1 = detail.Utf8Status.VALID := by
  induction cs generalizing a with
  | nil => rfl
  | cons c cs0 ih =>
    have hc : c ≤ 0x10FFFF := h c (List.mem_cons_self c cs0)
    have hrest : ∀ x ∈ cs0, x ≤ 0x10FFFF := fun x hx => h x (List.mem_cons_of_mem c hx)
    rw [show utf8Encode (c :: cs0) = utf8EncodeChar c ++ utf8Encode cs0 from rfl]
    rw [validate_go_encodeChar c _ a hc]
    exact ih _ hrest

/-- The smart converter returns any UTF-8 encoding of code points below
0x10FFFF unchanged: such bytes detect as ASCII or UTF8. -/
theorem to_utf8_encode_ok (cs : List Nat) (h : ∀ c ∈ cs, c ≤ 0x10FFFF) :
    to_utf8 (utf8Encode cs) = Except.ok (utf8Encode cs) := by
  have hd : detect_encoding (utf8Encode cs) = Encoding.ASCII ∨
      detect_encoding (utf8Encode cs) = Encoding.UTF8 := by
    unfold detect_encoding
    by_cases he : (utf8Encode cs).isEmpty
    · left; rw [if_pos he]
    · rw [if_neg he]
      have hv := validate_encode_valid cs true h
      rcases hval : detail.validate_utf8 (utf8Encode cs) with ⟨st, fl⟩
      have hst : st = detail.Utf8Status.VALID := by
        have : (detail.validate_utf8 (utf8Encode cs)).1 = detail.Utf8Status.VALID := hv
        rw [hval] at this
        exact this
      subst hst
      cases fl
      · right; rfl
      · left; rfl
  unfold to_utf8 to_utf8_core
  rcases hd with hd | hd <;> rw [hd]

/-- If some code point of a list has no GBK representation, encoding the
whole list fails. -/
theorem encodeAllGbk_none {cs : List Nat} (h : ∃ c ∈ cs, gbkEncodeChar c = none) :
    encodeAllGbk cs = none := by
  induction cs with
  | nil => simp at h
  | cons c rest ih =>
    obtain ⟨x, hx, hnone⟩ := h
    rcases List.mem_cons.mp hx with rfl | hx2
    · simp [encodeAllGbk, hnone]
    · have htail := ih ⟨x, hx2, hnone⟩
      cases he : gbkEncodeChar c <;> simp [encodeAllGbk, he, htail]

/-- The low-level transcoder never produces the unrecognized-encoding
error: that error belongs to the smart converters alone. -/
theorem utf8_to_gbk_not_unrecognized (s : List Nat) :
    utf8_to_gbk s ≠ Except.error ConvError.unrecognizedEncoding := by
  unfold utf8_to_gbk
  cases hdec : utf8Decode s with
  | none => simp
  | some cs =>
    cases henc : encodeAllGbk cs with
    | none => simp [henc]
    | some out => simp [henc]

/-- Inversion: the detector classifies as GBK only when the GBK
validator accepted the bytes. -/
theorem detect_gbk_is_valid {s : List Nat} (h : detect_encoding s = Encoding.GBK) :
    detail.is_valid_gbk s = true := by
  unfold detect_encoding at h
  split at h
  · exact absurd h (by simp)
  · split at h
    · split at h <;> simp_all
    · simp_all
    · split at h
      · rename_i hg; exact hg
      · simp_all

/-- From the initial scan state, the all-ascii flag returned by
`detail::validate_utf8` is true exactly when every input byte is at most
0x7F. -/
theorem validate_utf8_snd (s : List Nat) :
    (detail.validate_utf8 s).2 = decide (∀ b ∈ s, b ≤ 0x7F) := by
  unfold detail.validate_utf8
  rw [validate_go_flag s 0 true (fun h => (Nat.lt_irrefl 0 h).elim)]
  simp

/-! ### The two detector copies agree -/

/-- The UTF-8 scan loops of the two source files agree from every
state. -/
theorem hpp_validate_go_eq : ∀ (s : List Nat) (p : Nat) (a : Bool),
    hpp.validate_utf8_go s p a = detail.validate_utf8_go s p a := by
  intro s
  induction s with
  | nil => intro p a; rfl
  | cons b rest ih =>
    intro p a
    simp only [hpp.validate_utf8_go, detail.validate_utf8_go]
    split_ifs <;> simp [ih]

/-- The GBK validators of the two source files agree. -/
theorem hpp_is_valid_gbk_eq_aux : ∀ (n : Nat) (s : List Nat), s.length ≤ n →
    hpp.is_valid_gbk s = detail.is_valid_gbk s := by
  intro n
  induction n with
  | zero =>
    intro s hlen
    have hnil : s = [] := List.eq_nil_of_length_eq_zero (Nat.le_zero.mp hlen)
    subst hnil
    rfl
  | succ n ih =>
    intro s hlen
    cases s with
    | nil => rfl
    | cons b rest =>
      cases rest with
      | nil => rfl
      | cons t rest2 =>
        simp only [hpp.is_valid_gbk, detail.is_valid_gbk]
        rw [ih (t :: rest2) (by simp at hlen ⊢; omega), ih rest2 (by simp at hlen ⊢; omega)]

/-- The two copies of `detect_encoding` in the repository compute the
same classification for every byte sequence. -/
theorem hpp_detect_eq (s : List Nat) : hpp.detect_encoding s = detect_encoding s := by
  unfold hpp.detect_encoding detect_encoding
  rw [show hpp.validate_utf8 s = detail.validate_utf8 s from hpp_validate_go_eq s 0 true]
  rw [hpp_is_valid_gbk_eq_aux s.length s le_rfl]

/-! ### The claims -/

/-- C1: `utf8_to_gbk` rejects unrepresentable characters instead of
silently substituting: whenever the UTF-8 input decodes to code points
one of which has no GBK representation (for example U+1F602, which lies
outside the Basic Multilingual Plane, as does every code point above
0xFFFF), the call fails with the unrepresentable-character error and
returns no output bytes at all. -/
theorem C1_utf8_to_gbk_rejects_unrepresentable :
    (∀ s cs, utf8Decode s = some cs → (∃ c ∈ cs, gbkEncodeChar c = none) →
      utf8_to_gbk s = Except.error ConvError.unrepresentableCharacter) ∧
    (∀ c, 0xFFFF < c → gbkEncodeChar c = none) ∧
    utf8Decode [0xF0, 0x9F, 0x98, 0x82] = some [0x1F602] ∧
    utf8_to_gbk [0xF0, 0x9F, 0x98, 0x82] = Except.error ConvError.unrepresentableCharacter := by
  refine ⟨?_, ?_, rfl, rfl⟩
  · intro s cs hdec hex
    simp only [utf8_to_gbk, hdec, encodeAllGbk_none hex]
  · intro c hc
    unfold gbkEncodeChar
    split_ifs <;> first | rfl | omega

/-- C1 witness: the theorem applied to the UTF-8 bytes of U+1F602. -/
theorem C1_witness :
    utf8_to_gbk [0xF0, 0x9F, 0x98, 0x82] = Except.error ConvError.unrepresentableCharacter :=
  C1_utf8_to_gbk_rejects_unrepresentable.1 [0xF0, 0x9F, 0x98, 0x82] [0x1F602] rfl
    ⟨0x1F602, by simp, rfl⟩

/-- C2: `detect_encoding` follows the ordered policy, first match wins:
empty input is Ascii; on a VALID UTF-8 scan the result is Ascii exactly
when every byte is at most 0x7F and Utf8 otherwise; an INCOMPLETE scan
gives Unknown without consulting the GBK validator (the bytes E4 BD are
valid GBK yet classify Unknown, and the lone byte E4 classifies Unknown);
only an INVALID scan consults the GBK validator, giving Gbk on acceptance
and Unknown on rejection. -/
theorem C2_detect_encoding_policy :
    detect_encoding [] = Encoding.ASCII ∧
    (∀ s, s ≠ [] → (detail.validate_utf8 s).1 = detail.Utf8Status.VALID →
      detect_encoding s = if ∀ b ∈ s, b ≤ 0x7F then Encoding.ASCII else Encoding.UTF8) ∧
    (∀ s, s ≠ [] → (detail.validate_utf8 s).1 = detail.Utf8Status.INCOMPLETE_SEQUENCE →
      detect_encoding s = Encoding.UNKNOWN) ∧
    (∀ s, s ≠ [] → (detail.validate_utf8 s).1 = detail.Utf8Status.INVALID_SEQUENCE →
      detect_encoding s = if detail.is_valid_gbk s then Encoding.GBK else Encoding.UNKNOWN) ∧
    detect_encoding [0xE4] = Encoding.UNKNOWN ∧
    detail.is_valid_gbk [0xE4, 0xBD] = true ∧ detect_encoding [0xE4, 0xBD] = Encoding.UNKNOWN := by
  have hne : ∀ s : List Nat, s ≠ [] → ¬s.isEmpty := by
    intro s h
    cases s with
    | nil => exact absurd rfl h
    | cons b rest => simp
  refine ⟨rfl, ?_, ?_, ?_, rfl, rfl, rfl⟩
  · intro s hs hv
    unfold detect_encoding
    rw [if_neg (hne s hs)]
    rcases hval : detail.validate_utf8 s with ⟨st, fl⟩
    rw [hval] at hv
    cases st <;> simp at hv
    have hfl : fl = decide (∀ b ∈ s, b ≤ 0x7F) := by
      have := validate_utf8_snd s
      rw [hval] at this
      exact this
    subst hfl
    simp
  · intro s hs hv
    unfold detect_encoding
    rw [if_neg (hne s hs)]
    rcases hval : detail.validate_utf8 s with ⟨st, fl⟩
    rw [hval] at hv
    cases st <;> simp at hv
    rfl
  · intro s hs hv
    unfold detect_encoding
    rw [if_neg (hne s hs)]
    rcases hval : detail.validate_utf8 s with ⟨st, fl⟩
    rw [hval] at hv
    cases st <;> simp at hv
    rfl

/-- C2 witness: the theorem applied to the lone UTF-8 lead byte E4. -/
theorem C2_witness : detect_encoding [0xE4] = Encoding.UNKNOWN :=
  C2_detect_encoding_policy.2.2.1 [0xE4] (by decide) rfl

/-- C3: `detail::validate_utf8` implements exactly the single
left-to-right scan with a pending-continuation counter that the spec
describes, and its all-ascii flag is true exactly when every byte of the
input is at most 0x7F. -/
theorem C3_validate_utf8_refines_spec :
    ∀ s, (∀ b ∈ s, b < 256) → detail.validate_utf8 s = specValidateUtf8 s := by
  intro s hs
  rcases hv : detail.validate_utf8 s with ⟨st, fl⟩
  have h1 : st = specUtf8Status s 0 := by
    have := validate_go_status s hs 0 true
    unfold detail.validate_utf8 at hv
    rw [hv] at this
    exact this
  have h2 : fl = decide (∀ b ∈ s, b ≤ 0x7F) := by
    have := validate_utf8_snd s
    rw [hv] at this
    exact this
  unfold specValidateUtf8
  rw [h1, h2]

/-- C3 witness: the theorem applied to a truncated three-byte unit. -/
theorem C3_witness : detail.validate_utf8 [0xE4, 0xBD] = specValidateUtf8 [0xE4, 0xBD] :=
  C3_validate_utf8_refines_spec [0xE4, 0xBD] (by decide)

/-- C4: `detail::is_valid_gbk` returns true exactly when the bytes parse
left to right as units — a byte at most 0x7F stands alone, a lead byte
in [0x81, 0xFE] is followed by a trail byte in [0x40, 0xFE] other than
0x7F; a dangling lead byte (truncation collapses into invalid), a bad
trail byte, or a first byte of 0x80 or 0xFF make it return false. -/
theorem C4_is_valid_gbk_iff :
    (∀ s, detail.is_valid_gbk s = true ↔ GbkSeq s) ∧
    detail.is_valid_gbk [0x81] = false ∧
    detail.is_valid_gbk [0x81, 0x3F] = false ∧
    detail.is_valid_gbk [0x81, 0x7F] = false ∧
    detail.is_valid_gbk [0x80] = false ∧
    detail.is_valid_gbk [0xFF] = false :=
  ⟨fun s => is_valid_gbk_iff_aux s.length s le_rfl, rfl, rfl, rfl, rfl, rfl⟩

/-- C4 witness: the theorem applied to an ASCII byte followed by a GBK
pair. -/
theorem C4_witness : GbkSeq [0x41, 0xC4, 0xE3] :=
  (C4_is_valid_gbk_iff.1 [0x41, 0xC4, 0xE3]).mp rfl

/-- C5: round-trip fidelity — every byte sequence that detects as Gbk is
converted to UTF-8 and back to exactly the original bytes; in particular
the GBK bytes C4 E3 BA C3 CA C0 BD E7 detect as Gbk, convert to the
UTF-8 bytes E4 BD A0 E5 A5 BD E4 B8 96 E7 95 8C, and convert back to the
original eight bytes. -/
theorem C5_gbk_round_trip :
    (∀ s, detect_encoding s = Encoding.GBK →
      ∃ m, gbk_to_utf8 s = Except.ok m ∧ utf8_to_gbk m = Except.ok s) ∧
    detect_encoding [0xC4, 0xE3, 0xBA, 0xC3, 0xCA, 0xC0, 0xBD, 0xE7] = Encoding.GBK ∧
    gbk_to_utf8 [0xC4, 0xE3, 0xBA, 0xC3, 0xCA, 0xC0, 0xBD, 0xE7] =
      Except.ok [0xE4, 0xBD, 0xA0, 0xE5, 0xA5, 0xBD, 0xE4, 0xB8, 0x96, 0xE7, 0x95, 0x8C] ∧
    utf8_to_gbk [0xE4, 0xBD, 0xA0, 0xE5, 0xA5, 0xBD, 0xE4, 0xB8, 0x96, 0xE7, 0x95, 0x8C] =
      Except.ok [0xC4, 0xE3, 0xBA, 0xC3, 0xCA, 0xC0, 0xBD, 0xE7] := by
  refine ⟨?_, rfl, rfl, rfl⟩
  intro s hdet
  have hval := detect_gbk_is_valid hdet
  obtain ⟨cs, hdec, henc, hlt⟩ := gbk_decode_spec hval
  refine ⟨utf8Encode cs, ?_, ?_⟩
  · simp only [gbk_to_utf8, hdec]
  · simp only [utf8_to_gbk, utf8Decode_encode cs hlt, henc]

/-- C5 witness: the theorem applied to the GBK bytes of the spec
scenario. -/
theorem C5_witness :
    ∃ m, gbk_to_utf8 [0xC4, 0xE3, 0xBA, 0xC3, 0xCA, 0xC0, 0xBD, 0xE7] = Except.ok m ∧
      utf8_to_gbk m = Except.ok [0xC4, 0xE3, 0xBA, 0xC3, 0xCA, 0xC0, 0xBD, 0xE7] :=
  C5_gbk_round_trip.1 [0xC4, 0xE3, 0xBA, 0xC3, 0xCA, 0xC0, 0xBD, 0xE7] rfl

/-- C6: the smart converters call the detector once and branch on the
result — input detecting as the target encoding or as Ascii is returned
as an unchanged copy whatever the low-level converter would do (the
converter is never invoked); input detecting as the opposite encoding is
delegated to the corresponding low-level transcoder; input detecting as
Unknown (such as the bytes FF FE) fails with the unrecognized-encoding
error whatever the low-level converter would do. -/
theorem C6_smart_converter_policy :
    (∀ (conv : List Nat → Except ConvError (List Nat)) s,
      detect_encoding s = Encoding.UTF8 ∨ detect_encoding s = Encoding.ASCII →
        to_utf8_core conv s = Except.ok s) ∧
    (∀ s, detect_encoding s = Encoding.GBK → to_utf8 s = gbk_to_utf8 s) ∧
    (∀ (conv : List Nat → Except ConvError (List Nat)) s,
      detect_encoding s = Encoding.UNKNOWN →
        to_utf8_core conv s = Except.error ConvError.unrecognizedEncoding) ∧
    (∀ (conv : List Nat → Except ConvError (List Nat)) s,
      detect_encoding s = Encoding.GBK ∨ detect_encoding s = Encoding.ASCII →
        to_gbk_core conv s = Except.ok s) ∧
    (∀ s, detect_encoding s = Encoding.UTF8 → to_gbk s = utf8_to_gbk s) ∧
    (∀ (conv : List Nat → Except ConvError (List Nat)) s,
      detect_encoding s = Encoding.UNKNOWN →
        to_gbk_core conv s = Except.error ConvError.unrecognizedEncoding) ∧
    detect_encoding [0xFF, 0xFE] = Encoding.UNKNOWN := by
  refine ⟨?_, ?_, ?_, ?_, ?_, ?_, rfl⟩
  · intro conv s h
    unfold to_utf8_core
    rcases h with h | h <;> rw [h]
  · intro s h
    unfold to_utf8 to_utf8_core
    rw [h]
  · intro conv s h
    unfold to_utf8_core
    rw [h]
  · intro conv s h
    unfold to_gbk_core
    rcases h with h | h <;> rw [h]
  · intro s h
    unfold to_gbk to_gbk_core
    rw [h]
  · intro conv s h
    unfold to_gbk_core
    rw [h]

/-- C6 witness: the theorem applied to the bytes FF FE, for an arbitrary
choice of low-level converter. -/
theorem C6_witness :
    to_utf8_core gbk_to_utf8 [0xFF, 0xFE] = Except.error ConvError.unrecognizedEncoding :=
  C6_smart_converter_policy.2.2.1 gbk_to_utf8 [0xFF, 0xFE] rfl

/-- C7: ASCII intersection — every input whose bytes are all at most
0x7F (including the empty input) detects as Ascii, and both `is_utf8`
and `is_gbk` hold; moreover `is_utf8` holds exactly when the detector
answers Utf8 or Ascii, and `is_gbk` exactly when it answers Gbk or
Ascii. -/
theorem C7_ascii_intersection :
    (∀ s, (∀ b ∈ s, b ≤ 0x7F) →
      detect_encoding s = Encoding.ASCII ∧ is_utf8 s = true ∧ is_gbk s = true) ∧
    (∀ s, is_utf8 s = true ↔
      detect_encoding s = Encoding.UTF8 ∨ detect_encoding s = Encoding.ASCII) ∧
    (∀ s, is_gbk s = true ↔
      detect_encoding s = Encoding.GBK ∨ detect_encoding s = Encoding.ASCII) := by
  have hdet : ∀ s, (∀ b ∈ s, b ≤ 0x7F) → detect_encoding s = Encoding.ASCII := by
    intro s h
    unfold detect_encoding
    by_cases he : s.isEmpty
    · rw [if_pos he]
    · rw [if_neg he]
      unfold detail.validate_utf8
      rw [validate_go_ascii s true h]
      rfl
  refine ⟨fun s h => ⟨hdet s h, ?_, ?_⟩, ?_, ?_⟩
  · simp [is_utf8, hdet s h]
  · simp [is_gbk, hdet s h]
  · intro s
    simp [is_utf8]
  · intro s
    simp [is_gbk]

/-- C7 witness: the theorem applied to the ASCII bytes of "Hi". -/
theorem C7_witness :
    detect_encoding [0x48, 0x69] = Encoding.ASCII ∧
      is_utf8 [0x48, 0x69] = true ∧ is_gbk [0x48, 0x69] = true :=
  C7_ascii_intersection.1 [0x48, 0x69] (by decide)

/-- C8: idempotent smart conversion — whenever `to_utf8` succeeds, a
second application succeeds and returns the same bytes. -/
theorem C8_to_utf8_idempotent :
    ∀ s r, to_utf8 s = Except.ok r → to_utf8 r = Except.ok r := by
  intro s r h
  unfold to_utf8 to_utf8_core at h
  cases hdet : detect_encoding s with
  | UNKNOWN =>
    rw [hdet] at h
    exact absurd h (by simp)
  | ASCII =>
    rw [hdet] at h
    obtain rfl : s = r := by simpa using h
    unfold to_utf8 to_utf8_core
    rw [hdet]
  | UTF8 =>
    rw [hdet] at h
    obtain rfl : s = r := by simpa using h
    unfold to_utf8 to_utf8_core
    rw [hdet]
  | GBK =>
    rw [hdet] at h
    have hval := detect_gbk_is_valid hdet
    obtain ⟨cs, hdec, henc, hlt⟩ := gbk_decode_spec hval
    rw [show gbk_to_utf8 s = Except.ok (utf8Encode cs) from by
      simp only [gbk_to_utf8, hdec]] at h
    obtain rfl : utf8Encode cs = r := by simpa using h
    exact to_utf8_encode_ok cs (fun c hc => by have := hlt c hc; omega)

/-- C8 witness: the theorem applied to a one-byte ASCII input. -/
theorem C8_witness : to_utf8 [0x41] = Except.ok [0x41] :=
  C8_to_utf8_idempotent [0x41] [0x41] rfl

/-- C9: the two copies of the detector — in
`src/include/encoding_util/encoding_util.hpp` and in
`src/unnamed/part_003` — classify every byte sequence identically, and
their helper validators agree as well. -/
theorem C9_detector_copies_agree :
    ∀ s, hpp.detect_encoding s = detect_encoding s ∧
      hpp.validate_utf8 s = detail.validate_utf8 s ∧
      hpp.is_valid_gbk s = detail.is_valid_gbk s :=
  fun s =>
    ⟨hpp_detect_eq s, hpp_validate_go_eq s 0 true, hpp_is_valid_gbk_eq_aux s.length s le_rfl⟩

/-- C10: the C++20 overload `to_gbk(std::u8string_view)` bypasses
detection — it equals `utf8_to_gbk` on the raw bytes, never fails with
the unrecognized-encoding error, and hands bytes that would detect as
Gbk or Unknown to the transcoding service as if they were UTF-8 (the
GBK bytes of the round-trip scenario, accepted unchanged by
`to_gbk(std::string_view)`, are rejected as malformed UTF-8 by the u8
overload, as are the Unknown bytes FF FE). -/
theorem C10_to_gbk_u8_bypasses_detection :
    (∀ s, to_gbk_u8 s = utf8_to_gbk s) ∧
    (∀ s, to_gbk_u8 s ≠ Except.error ConvError.unrecognizedEncoding) ∧
    detect_encoding [0xC4, 0xE3, 0xBA, 0xC3, 0xCA, 0xC0, 0xBD, 0xE7] = Encoding.GBK ∧
    to_gbk [0xC4, 0xE3, 0xBA, 0xC3, 0xCA, 0xC0, 0xBD, 0xE7] =
      Except.ok [0xC4, 0xE3, 0xBA, 0xC3, 0xCA, 0xC0, 0xBD, 0xE7] ∧
    to_gbk_u8 [0xC4, 0xE3, 0xBA, 0xC3, 0xCA, 0xC0, 0xBD, 0xE7] =
      Except.error ConvError.malformedInput ∧
    detect_encoding [0xFF, 0xFE] = Encoding.UNKNOWN ∧
    to_gbk_u8 [0xFF, 0xFE] = Except.error ConvError.malformedInput :=
  ⟨fun _ => rfl, utf8_to_gbk_not_unrecognized, rfl, rfl, rfl, rfl, rfl⟩

end encoding_util
